import Mathlib

/-!
Verification of the KNMI incremental acquisition-and-merge pipeline
(`src/knmi.py`): shallow embedding of the cursor resolver, the batch
downloader, the batched dataset merger and the query layer, together with
proofs of the specified properties.
-/

namespace Knmi

/-! ## Batched merge grouping (`merge_nc_files`, loop at knmi.py lines 230-243)

The Python loop appends each opened dataset to `data_sets`; whenever the
running index satisfies `(ii + 1) % 500 == 0` the accumulated group is
closed into `merged_batch` and `data_sets` is reset.  After the loop the
remaining `data_sets` (possibly empty) is merged as the final, shorter
group.  The grouping is modelled generically over the element type. -/

/-- Loop body of `merge_nc_files`: the accumulator holds the closed batches
(`merged_batch`) and the currently open group (`data_sets`); `p` is the
enumerated element `(ii, file)`. -/
def mergeFoldStep {α : Type} (acc : List (List α) × List α) (p : Nat × α) :
    List (List α) × List α :=
  let data_sets := acc.2 ++ [p.2]
  if (p.1 + 1) % 500 = 0 then (acc.1 ++ [data_sets], [])
  else (acc.1, data_sets)

/-- State of `merge_nc_files` after its enumeration loop: the closed batches
of 500 and the remaining open group. -/
def mergeFold {α : Type} (files : List α) : List (List α) × List α :=
  (files.enum).foldl mergeFoldStep ([], [])

/-- Merge groups produced by one pass of `merge_nc_files`: every closed
batch of 500, followed by the final (possibly shorter, possibly empty)
remainder group, which the code merges as `data_set_merging`. -/
def mergeGroups {α : Type} (files : List α) : List (List α) :=
  (mergeFold files).1 ++ [(mergeFold files).2]

lemma mergeFold_go {α : Type} (l : List α) :
    ∀ (i : Nat) (mb : List (List α)) (ds : List α),
      (((List.enumFrom i l).foldl mergeFoldStep (mb, ds)).1).flatten ++
          ((List.enumFrom i l).foldl mergeFoldStep (mb, ds)).2 =
        mb.flatten ++ (ds ++ l) := by
  induction l with
  | nil => intro i mb ds; simp [List.enumFrom]
  | cons x l ih =>
    intro i mb ds
    rw [show List.enumFrom i (x :: l) = (i, x) :: List.enumFrom (i + 1) l from rfl,
      List.foldl_cons]
    by_cases h : (i + 1) % 500 = 0
    · rw [show mergeFoldStep (mb, ds) (i, x) = (mb ++ [ds ++ [x]], []) by
        simp [mergeFoldStep, h]]
      rw [ih (i + 1) (mb ++ [ds ++ [x]]) []]
      simp
    · rw [show mergeFoldStep (mb, ds) (i, x) = (mb, ds ++ [x]) by
        simp [mergeFoldStep, h]]
      rw [ih (i + 1) mb (ds ++ [x])]
      simp

/-- Concatenating the closed batches and the open remainder recovers the
original file list in order. -/
lemma mergeFold_flatten {α : Type} (files : List α) :
    ((mergeFold files).1).flatten ++ (mergeFold files).2 = files := by
  have h := mergeFold_go files 0 [] []
  simpa [mergeFold, List.enum] using h

/-- C1: every raw file of the downloads folder lands in exactly one merge
group — the closed batches of 500 plus the final, possibly shorter (for a
count that is an exact multiple of 500, empty) remainder group — so the
concatenation of all merge groups is exactly the enumerated file list and
no file is dropped. -/
theorem merge_groups_complete {α : Type} (files : List α) :
    (mergeGroups files).flatten = files := by
  have h := mergeFold_flatten files
  simp only [mergeGroups, List.flatten_append, List.flatten_cons,
    List.flatten_nil, List.append_nil]
  exact h

/-! ## Filenames and timestamps (`filename_to_date`, knmi.py lines 156-167,
and the cursor-resolution phase of `download_files`, lines 181-185)

Filenames are modelled as lists of characters.  The remote filenames follow
the fixed convention `<prefix><YYYYMMDDHHMM>.nc` with the constant prefix
`file_head` of knmi.py line 174. -/

/-- Fixed filename prefix `file_head = "KMDS__OPER_P___10M_OBS_L2_"`
(knmi.py line 174). -/
def file_head : List Char := "KMDS__OPER_P___10M_OBS_L2_".toList

/-- Fixed extension ".nc" of the raw files matched by the glob pattern
`*.nc` (knmi.py line 181). -/
def nc_ext : List Char := ".nc".toList

/-- Value of a decimal digit character (`'0'` has code point 48). -/
def digitVal (c : Char) : Nat := c.toNat - 48

/-- Decimal digit test on code points, 48 = `'0'` to 57 = `'9'`. -/
def isDigitChar (c : Char) : Bool := 48 ≤ c.toNat && c.toNat ≤ 57

/-- Numeric value of a fixed-width decimal digit string, as `int` applied
to a slice of the filename. -/
def digitsToNat : List Char → Nat
  | [] => 0
  | c :: cs => digitVal c * 10 ^ cs.length + digitsToNat cs

/-- Wall-clock timestamp with minute resolution, the result of
`pd.to_datetime` on the reformatted`"YYYY-MM-DD HH:MM:00"` string built by
`filename_to_date` (seconds are always `"00"`, knmi.py line 163). -/
structure Timestamp where
  year : Nat
  month : Nat
  day : Nat
  hour : Nat
  minute : Nat
deriving DecidableEq, Repr

/-- Chronological sort key of a timestamp: for in-range field values this
is exactly the `YYYYMMDDHHMM` number, and comparing keys is comparing the
instants chronologically. -/
def Timestamp.key (t : Timestamp) : Nat :=
  (((t.year * 100 + t.month) * 100 + t.day) * 100 + t.hour) * 100 + t.minute

/-- Embedding of `filename_to_date` (knmi.py lines 156-167): take the last
12 characters of the (extension-stripped) filename and read them as
`YYYYMMDDHHMM`.  `filename[-12:]` on a Python string of length ≥ 12 is
`drop (length - 12)`; the five slices are the five fields fed through
`pd.to_datetime`. -/
def filename_to_date (filename : List Char) : Timestamp :=
  let full_date := filename.drop (filename.length - 12)
  { year := digitsToNat (full_date.take 4)
    month := digitsToNat ((full_date.drop 4).take 2)
    day := digitsToNat ((full_date.drop 6).take 2)
    hour := digitsToNat ((full_date.drop 8).take 2)
    minute := digitsToNat ((full_date.drop 10).take 2) }

/-- Python `Path.stem` for a name carrying the three-character extension
".nc": the name with its final three characters removed. -/
def stem (f : List Char) : List Char := f.take (f.length - 3)

/-- Python string comparison `a < b`: lexicographic on code points. -/
def lexLt : List Char → List Char → Bool
  | _, [] => false
  | [], _ :: _ => true
  | a :: as, b :: bs =>
    if a.toNat < b.toNat then true
    else if b.toNat < a.toNat then false
    else lexLt as bs

/-- Last element of `sorted(files)`, i.e. the maximum of the non-empty
list `f0 :: fs` under Python string order (knmi.py line 181 takes
`sorted(folder.glob("*.nc"))[-1]`). -/
def lastSorted (f0 : List Char) (fs : List (List Char)) : List Char :=
  fs.foldl (fun acc g => if lexLt acc g then g else acc) f0

/-- Cursor resolution inside `download_files` (knmi.py lines 181-182):
`max_date = filename_to_date(sorted(folder.glob("*.nc"))[-1].stem)`. -/
def resolve_cursor (f0 : List Char) (fs : List (List Char)) : Timestamp :=
  filename_to_date (stem (lastSorted f0 fs))

/-- Chronological key parsed from a filename, shorthand for the key of
`filename_to_date` applied to the filename's stem. -/
def tsKey (f : List Char) : Nat := (filename_to_date (stem f)).key

/-- Fixed filename convention of the raw files (spec §6): the constant
prefix, twelve digit characters `YYYYMMDDHHMM`, then the ".nc" extension. -/
def Convention (f : List Char) : Prop :=
  ∃ d : List Char, f = file_head ++ d ++ nc_ext ∧ d.length = 12 ∧
    ∀ c ∈ d, isDigitChar c = true

/-- Zero-padded fixed-width decimal rendering, as `strftime` does for each
timestamp field. -/
def padDigits : Nat → Nat → List Char
  | 0, _ => []
  | w + 1, v => Char.ofNat (48 + v / 10 ^ w) :: padDigits w (v % 10 ^ w)

/-- Rendering `max_date.strftime('%Y%m%d%H%M')` (knmi.py line 185):
zero-padded year (width 4), month, day, hour and minute (width 2). -/
def strfTimestamp (t : Timestamp) : List Char :=
  padDigits 4 t.year ++ (padDigits 2 t.month ++ (padDigits 2 t.day ++
    (padDigits 2 t.hour ++ padDigits 2 t.minute)))

/-- Pagination parameter built in `download_files` (knmi.py line 185):
`start_after_filename = file_head + max_date.strftime('%Y%m%d%H%M') + ".nc"`. -/
def start_after_filename (f0 : List Char) (fs : List (List Char)) : List Char :=
  file_head ++ strfTimestamp (resolve_cursor f0 fs) ++ nc_ext

/-! ### Arithmetic of fixed-width digit strings -/

lemma isDigitChar_bounds {c : Char} (h : isDigitChar c = true) :
    48 ≤ c.toNat ∧ c.toNat ≤ 57 := by
  simpa [isDigitChar, Bool.and_eq_true, decide_eq_true_eq] using h

lemma digitVal_le_nine {c : Char} (h : isDigitChar c = true) : digitVal c ≤ 9 := by
  have := isDigitChar_bounds h
  unfold digitVal
  omega

lemma digitsToNat_lt {l : List Char} (h : ∀ c ∈ l, isDigitChar c = true) :
    digitsToNat l < 10 ^ l.length := by
  induction l with
  | nil => simp [digitsToNat]
  | cons c cs ih =>
    have hc : digitVal c ≤ 9 := digitVal_le_nine (h c (List.mem_cons_self c cs))
    have hcs : digitsToNat cs < 10 ^ cs.length :=
      ih (fun x hx => h x (List.mem_cons_of_mem c hx))
    have hmul : (digitVal c + 1) * 10 ^ cs.length ≤ 10 * 10 ^ cs.length :=
      Nat.mul_le_mul_right _ (by omega)
    calc digitsToNat (c :: cs) = digitVal c * 10 ^ cs.length + digitsToNat cs := rfl
      _ < (digitVal c + 1) * 10 ^ cs.length := by
          rw [Nat.succ_mul]; omega
      _ ≤ 10 * 10 ^ cs.length := hmul
      _ = 10 ^ (c :: cs).length := by
          rw [List.length_cons, pow_succ, Nat.mul_comm]

lemma digitsToNat_append (a b : List Char) :
    digitsToNat (a ++ b) = digitsToNat a * 10 ^ b.length + digitsToNat b := by
  induction a with
  | nil => simp [digitsToNat]
  | cons c cs ih =>
    show digitVal c * 10 ^ (cs ++ b).length + digitsToNat (cs ++ b) = _
    rw [ih, List.length_append, pow_add]
    show _ = (digitVal c * 10 ^ cs.length + digitsToNat cs) * 10 ^ b.length + _
    ring

lemma key_filename_to_date {d : List Char} (h : d.length = 12) :
    (filename_to_date d).key = digitsToNat d := by
  have hfull : d.drop (d.length - 12) = d := by rw [h]; simp
  have s0 : digitsToNat d =
      digitsToNat (d.take 4) * 10 ^ 8 + digitsToNat (d.drop 4) := by
    conv_lhs => rw [← List.take_append_drop 4 d]
    rw [digitsToNat_append, List.length_drop, h]
  have s1 : digitsToNat (d.drop 4) =
      digitsToNat ((d.drop 4).take 2) * 10 ^ 6 + digitsToNat (d.drop 6) := by
    conv_lhs => rw [← List.take_append_drop 2 (d.drop 4)]
    rw [digitsToNat_append, List.drop_drop, List.length_drop, h]
  have s2 : digitsToNat (d.drop 6) =
      digitsToNat ((d.drop 6).take 2) * 10 ^ 4 + digitsToNat (d.drop 8) := by
    conv_lhs => rw [← List.take_append_drop 2 (d.drop 6)]
    rw [digitsToNat_append, List.drop_drop, List.length_drop, h]
  have s3 : digitsToNat (d.drop 8) =
      digitsToNat ((d.drop 8).take 2) * 10 ^ 2 + digitsToNat (d.drop 10) := by
    conv_lhs => rw [← List.take_append_drop 2 (d.drop 8)]
    rw [digitsToNat_append, List.drop_drop, List.length_drop, h]
  have s4 : (d.drop 10).take 2 = d.drop 10 :=
    List.take_of_length_le (by rw [List.length_drop, h])
  simp only [filename_to_date, hfull, Timestamp.key]
  rw [s4, s0, s1, s2, s3]
  ring

lemma filename_to_date_append (p d : List Char) (h : d.length = 12) :
    filename_to_date (p ++ d) = filename_to_date d := by
  have hdrop : (p ++ d).drop ((p ++ d).length - 12) = d := by
    rw [List.length_append, h, Nat.add_sub_cancel]
    exact List.drop_left p d
  have hfull : d.drop (d.length - 12) = d := by rw [h]; simp
  simp only [filename_to_date, hdrop, hfull]

lemma stem_append (x : List Char) : stem (x ++ nc_ext) = x := by
  have h : (x ++ nc_ext).length - 3 = x.length := by
    rw [List.length_append]
    rfl
  rw [stem, h, List.take_left]

lemma conv_tsKey {f : List Char} (h : Convention f) :
    ∃ d : List Char, f = file_head ++ d ++ nc_ext ∧ d.length = 12 ∧
      (∀ c ∈ d, isDigitChar c = true) ∧ tsKey f = digitsToNat d := by
  obtain ⟨d, rfl, hlen, hdig⟩ := h
  refine ⟨d, rfl, hlen, hdig, ?_⟩
  unfold tsKey
  rw [stem_append, filename_to_date_append _ _ hlen, key_filename_to_date hlen]

/-! ### Lexicographic order on filenames versus numeric order on
timestamps -/

lemma lexLt_irrefl (l : List Char) : lexLt l l = false := by
  induction l with
  | nil => rfl
  | cons c cs ih => simp [lexLt, ih]

lemma lexLt_append_left (p a b : List Char) :
    lexLt (p ++ a) (p ++ b) = lexLt a b := by
  induction p with
  | nil => rfl
  | cons c p ih => simp [lexLt, ih]

lemma lexLt_append_right (s : List Char) :
    ∀ (a b : List Char), a.length = b.length →
      lexLt (a ++ s) (b ++ s) = lexLt a b := by
  intro a
  induction a with
  | nil =>
    intro b hb
    obtain rfl : b = [] := List.length_eq_zero.mp hb.symm
    show lexLt (s) (s) = lexLt [] []
    rw [lexLt_irrefl]
    rfl
  | cons x as ih =>
    intro b hb
    cases b with
    | nil => simp at hb
    | cons y bs =>
      have hlen : as.length = bs.length := by simpa using hb
      show (if x.toNat < y.toNat then true
          else if y.toNat < x.toNat then false else lexLt (as ++ s) (bs ++ s)) =
        (if x.toNat < y.toNat then true
          else if y.toNat < x.toNat then false else lexLt as bs)
      rw [ih bs hlen]

lemma digit_block_lt {dx dy va vb P : Nat} (hva : va < P) (hxy : dx < dy) :
    dx * P + va < dy * P + vb := by
  have h1 : dx * P + va < (dx + 1) * P := by
    rw [Nat.succ_mul]
    omega
  have h2 : (dx + 1) * P ≤ dy * P := Nat.mul_le_mul_right P hxy
  omega

lemma lexLt_iff_digits :
    ∀ (a b : List Char), a.length = b.length →
      (∀ c ∈ a, isDigitChar c = true) → (∀ c ∈ b, isDigitChar c = true) →
      (lexLt a b = true ↔ digitsToNat a < digitsToNat b) := by
  intro a
  induction a with
  | nil =>
    intro b hb _ _
    obtain rfl : b = [] := List.length_eq_zero.mp hb.symm
    simp [lexLt, digitsToNat]
  | cons x as ih =>
    intro b hb hda hdb
    cases b with
    | nil => simp at hb
    | cons y bs =>
      have hlen : as.length = bs.length := by simpa using hb
      have hx := isDigitChar_bounds (hda x (List.mem_cons_self x as))
      have hy := isDigitChar_bounds (hdb y (List.mem_cons_self y bs))
      have hdas : ∀ c ∈ as, isDigitChar c = true :=
        fun c hc => hda c (List.mem_cons_of_mem x hc)
      have hdbs : ∀ c ∈ bs, isDigitChar c = true :=
        fun c hc => hdb c (List.mem_cons_of_mem y hc)
      have hva : digitsToNat as < 10 ^ as.length := digitsToNat_lt hdas
      have hvb : digitsToNat bs < 10 ^ bs.length := digitsToNat_lt hdbs
      show (if x.toNat < y.toNat then true
          else if y.toNat < x.toNat then false else lexLt as bs) = true ↔
        digitVal x * 10 ^ as.length + digitsToNat as <
          digitVal y * 10 ^ bs.length + digitsToNat bs
      rw [hlen] at hva ⊢
      by_cases h1 : x.toNat < y.toNat
      · have hd : digitVal x < digitVal y := by unfold digitVal; omega
        rw [if_pos h1]
        exact iff_of_true rfl (digit_block_lt hva hd)
      · by_cases h2 : y.toNat < x.toNat
        · have hd : digitVal y < digitVal x := by unfold digitVal; omega
          rw [if_neg h1, if_pos h2]
          have hba := @digit_block_lt (digitVal y) (digitVal x) (digitsToNat bs)
            (digitsToNat as) (10 ^ bs.length) hvb hd
          exact iff_of_false (by simp) (by omega)
        · have hd : digitVal x = digitVal y := by unfold digitVal; omega
          rw [if_neg h1, if_neg h2, ih bs hlen hdas hdbs, hd]
          omega

lemma conv_lexLt_iff {f g : List Char} (hf : Convention f) (hg : Convention g) :
    lexLt f g = true ↔ tsKey f < tsKey g := by
  obtain ⟨a, rfl, ha12, hadig, hka⟩ := conv_tsKey hf
  obtain ⟨b, rfl, hb12, hbdig, hkb⟩ := conv_tsKey hg
  rw [hka, hkb]
  rw [List.append_assoc file_head a nc_ext, List.append_assoc file_head b nc_ext,
    lexLt_append_left, lexLt_append_right nc_ext a b (by rw [ha12, hb12])]
  exact lexLt_iff_digits a b (by rw [ha12, hb12]) hadig hbdig

/-! ### The lexicographically last filename carries the maximal timestamp -/

lemma lastSorted_mem (f0 : List Char) (fs : List (List Char)) :
    lastSorted f0 fs ∈ f0 :: fs := by
  induction fs generalizing f0 with
  | nil => simp [lastSorted]
  | cons g fs ih =>
    show lastSorted (if lexLt f0 g then g else f0) fs ∈ f0 :: g :: fs
    by_cases hc : lexLt f0 g = true
    · rw [if_pos hc]
      rcases List.mem_cons.mp (ih g) with hh | hh
      · rw [hh]; simp
      · simp [List.mem_cons_of_mem, hh]
    · rw [if_neg hc]
      rcases List.mem_cons.mp (ih f0) with hh | hh
      · rw [hh]; simp
      · simp [List.mem_cons_of_mem, hh]

lemma conv_le_lastSorted (f0 : List Char) (fs : List (List Char))
    (hconv : ∀ f ∈ f0 :: fs, Convention f) :
    ∀ f ∈ f0 :: fs, tsKey f ≤ tsKey (lastSorted f0 fs) := by
  induction fs generalizing f0 with
  | nil =>
    intro f hf
    rcases List.mem_cons.mp hf with rfl | hh
    · exact Nat.le_refl _
    · cases hh
  | cons g fs ih =>
    have hf0 : Convention f0 := hconv f0 (List.mem_cons_self _ _)
    have hg : Convention g := hconv g (by simp)
    by_cases hc : lexLt f0 g = true
    · have hconv' : ∀ x ∈ g :: fs, Convention x := by
        intro x hx
        rcases List.mem_cons.mp hx with rfl | hx
        · exact hg
        · exact hconv x (by simp [hx])
      have ihh := ih g hconv'
      have hstep : lastSorted f0 (g :: fs) = lastSorted g fs := by
        show lastSorted (if lexLt f0 g then g else f0) fs = _
        rw [if_pos hc]
      intro f hf
      rw [hstep]
      rcases List.mem_cons.mp hf with rfl | hf'
      · have hlt : tsKey f < tsKey g := (conv_lexLt_iff hf0 hg).mp hc
        have hgle := ihh g (List.mem_cons_self _ _)
        omega
      · exact ihh f hf'
    · have hconv' : ∀ x ∈ f0 :: fs, Convention x := by
        intro x hx
        rcases List.mem_cons.mp hx with rfl | hx
        · exact hf0
        · exact hconv x (by simp [hx])
      have ihh := ih f0 hconv'
      have hstep : lastSorted f0 (g :: fs) = lastSorted f0 fs := by
        show lastSorted (if lexLt f0 g then g else f0) fs = _
        rw [if_neg hc]
      intro f hf
      rw [hstep]
      rcases List.mem_cons.mp hf with rfl | hf'
      · exact ihh f (List.mem_cons_self _ _)
      · rcases List.mem_cons.mp hf' with rfl | hf''
        · have hnlt : ¬ tsKey f0 < tsKey f := fun hlt =>
            hc ((conv_lexLt_iff hf0 hg).mpr hlt)
          have hf0le := ihh f0 (List.mem_cons_self _ _)
          omega
        · exact ihh f (List.mem_cons_of_mem _ hf'')

/-- C5: for a non-empty raw folder whose filenames follow the fixed
convention, the cursor resolved inside `download_files` — parsing the
trailing twelve characters of the lexicographically last filename's stem —
is the maximum of the timestamps parsed from all the folder's filenames:
it is attained by one of the files and no file's parsed timestamp exceeds
it. -/
theorem resolve_cursor_is_max (f0 : List Char) (fs : List (List Char))
    (hconv : ∀ f ∈ f0 :: fs, Convention f) :
    (∃ f ∈ f0 :: fs, resolve_cursor f0 fs = filename_to_date (stem f)) ∧
    ∀ f ∈ f0 :: fs, (filename_to_date (stem f)).key ≤ (resolve_cursor f0 fs).key := by
  constructor
  · exact ⟨lastSorted f0 fs, lastSorted_mem f0 fs, rfl⟩
  · exact conv_le_lastSorted f0 fs hconv

/-! ### Round trip between parsing and `strftime` reformatting -/

lemma padDigits_digitsToNat {l : List Char}
    (hdig : ∀ c ∈ l, isDigitChar c = true) :
    padDigits l.length (digitsToNat l) = l := by
  induction l with
  | nil => rfl
  | cons c cs ih =>
    have hc := isDigitChar_bounds (hdig c (List.mem_cons_self c cs))
    have hcs : digitsToNat cs < 10 ^ cs.length :=
      digitsToNat_lt (fun x hx => hdig x (List.mem_cons_of_mem c hx))
    have hdiv : (digitVal c * 10 ^ cs.length + digitsToNat cs) / 10 ^ cs.length
        = digitVal c := by
      rw [Nat.mul_comm, Nat.mul_add_div (Nat.pos_pow_of_pos _ (by norm_num)),
        Nat.div_eq_of_lt hcs, Nat.add_zero]
    have hmod : (digitVal c * 10 ^ cs.length + digitsToNat cs) % 10 ^ cs.length
        = digitsToNat cs := by
      rw [Nat.mul_comm, Nat.mul_add_mod, Nat.mod_eq_of_lt hcs]
    have hchar : Char.ofNat (48 + digitVal c) = c := by
      have he : 48 + digitVal c = c.toNat := by unfold digitVal; omega
      rw [he, Char.ofNat_toNat]
    show Char.ofNat (48 + digitsToNat (c :: cs) / 10 ^ cs.length) ::
        padDigits cs.length (digitsToNat (c :: cs) % 10 ^ cs.length) = c :: cs
    rw [show digitsToNat (c :: cs)
        = digitVal c * 10 ^ cs.length + digitsToNat cs from rfl,
      hdiv, hmod, hchar,
      ih (fun x hx => hdig x (List.mem_cons_of_mem c hx))]

lemma strf_filename_to_date {d : List Char} (h12 : d.length = 12)
    (hdig : ∀ c ∈ d, isDigitChar c = true) :
    strfTimestamp (filename_to_date d) = d := by
  have hfull : d.drop (d.length - 12) = d := by rw [h12]; simp
  have p4 : padDigits 4 (digitsToNat (d.take 4)) = d.take 4 := by
    have hl : (d.take 4).length = 4 := by simp [List.length_take, h12]
    have hp : padDigits (d.take 4).length (digitsToNat (d.take 4)) = d.take 4 :=
      padDigits_digitsToNat (fun c hc => hdig c (List.mem_of_mem_take hc))
    rwa [hl] at hp
  have p2a : padDigits 2 (digitsToNat ((d.drop 4).take 2)) = (d.drop 4).take 2 := by
    have hl : ((d.drop 4).take 2).length = 2 := by
      simp [List.length_take, List.length_drop, h12]
    have hp : padDigits ((d.drop 4).take 2).length
        (digitsToNat ((d.drop 4).take 2)) = (d.drop 4).take 2 :=
      padDigits_digitsToNat
        (fun c hc => hdig c (List.mem_of_mem_drop (List.mem_of_mem_take hc)))
    rwa [hl] at hp
  have p2b : padDigits 2 (digitsToNat ((d.drop 6).take 2)) = (d.drop 6).take 2 := by
    have hl : ((d.drop 6).take 2).length = 2 := by
      simp [List.length_take, List.length_drop, h12]
    have hp : padDigits ((d.drop 6).take 2).length
        (digitsToNat ((d.drop 6).take 2)) = (d.drop 6).take 2 :=
      padDigits_digitsToNat
        (fun c hc => hdig c (List.mem_of_mem_drop (List.mem_of_mem_take hc)))
    rwa [hl] at hp
  have p2c : padDigits 2 (digitsToNat ((d.drop 8).take 2)) = (d.drop 8).take 2 := by
    have hl : ((d.drop 8).take 2).length = 2 := by
      simp [List.length_take, List.length_drop, h12]
    have hp : padDigits ((d.drop 8).take 2).length
        (digitsToNat ((d.drop 8).take 2)) = (d.drop 8).take 2 :=
      padDigits_digitsToNat
        (fun c hc => hdig c (List.mem_of_mem_drop (List.mem_of_mem_take hc)))
    rwa [hl] at hp
  have p2d : padDigits 2 (digitsToNat ((d.drop 10).take 2)) = (d.drop 10).take 2 := by
    have hl : ((d.drop 10).take 2).length = 2 := by
      simp [List.length_take, List.length_drop, h12]
    have hp : padDigits ((d.drop 10).take 2).length
        (digitsToNat ((d.drop 10).take 2)) = (d.drop 10).take 2 :=
      padDigits_digitsToNat
        (fun c hc => hdig c (List.mem_of_mem_drop (List.mem_of_mem_take hc)))
    rwa [hl] at hp
  have e10 : (d.drop 10).take 2 = d.drop 10 :=
    List.take_of_length_le (by rw [List.length_drop, h12])
  have e8 : (d.drop 8).take 2 ++ d.drop 10 = d.drop 8 := by
    rw [show d.drop 10 = (d.drop 8).drop 2 by rw [List.drop_drop]]
    exact List.take_append_drop 2 (d.drop 8)
  have e6 : (d.drop 6).take 2 ++ d.drop 8 = d.drop 6 := by
    rw [show d.drop 8 = (d.drop 6).drop 2 by rw [List.drop_drop]]
    exact List.take_append_drop 2 (d.drop 6)
  have e4 : (d.drop 4).take 2 ++ d.drop 6 = d.drop 4 := by
    rw [show d.drop 6 = (d.drop 4).drop 2 by rw [List.drop_drop]]
    exact List.take_append_drop 2 (d.drop 4)
  show padDigits 4 (filename_to_date d).year ++
      (padDigits 2 (filename_to_date d).month ++
        (padDigits 2 (filename_to_date d).day ++
          (padDigits 2 (filename_to_date d).hour ++
            padDigits 2 (filename_to_date d).minute))) = d
  simp only [filename_to_date, hfull]
  rw [p4, p2a, p2b, p2c, p2d, e10, e8, e6, e4]
  exact List.take_append_drop 4 d

/-- C6: on a folder of filenames following the fixed convention, parsing
the cursor from the lexicographically last filename and reformatting it
through `strftime('%Y%m%d%H%M')` reproduces that filename exactly, so the
`startAfterFilename` pagination parameter equals the latest locally
present filename; consequently no local filename is lexicographically
greater than the parameter, so a listing of strictly-later filenames
re-requests no file already present. -/
theorem start_after_round_trip (f0 : List Char) (fs : List (List Char))
    (hconv : ∀ f ∈ f0 :: fs, Convention f) :
    start_after_filename f0 fs = lastSorted f0 fs ∧
    ∀ f ∈ f0 :: fs, lexLt (start_after_filename f0 fs) f = false := by
  have hmem := lastSorted_mem f0 fs
  have hlastconv : Convention (lastSorted f0 fs) := hconv _ hmem
  obtain ⟨d, hEq, h12, hdig⟩ := hlastconv
  have h1 : start_after_filename f0 fs = lastSorted f0 fs := by
    unfold start_after_filename resolve_cursor
    rw [hEq, stem_append, filename_to_date_append _ _ h12,
      strf_filename_to_date h12 hdig]
  refine ⟨h1, ?_⟩
  intro f hf
  rw [h1]
  rcases Bool.eq_false_or_eq_true (lexLt (lastSorted f0 fs) f) with hb | hb
  swap
  · exact hb
  · exfalso
    have hlt := (conv_lexLt_iff (hconv _ hmem) (hconv f hf)).mp hb
    have hle := conv_le_lastSorted f0 fs hconv f hf
    unfold tsKey at hlt hle
    omega

/-- Demonstration raw filename encoding 2024-01-01 00:00. -/
def fnA : List Char := file_head ++ "202401010000".toList ++ nc_ext

/-- Demonstration raw filename encoding 2024-01-01 00:10. -/
def fnB : List Char := file_head ++ "202401010010".toList ++ nc_ext

lemma fn_demo_conv : ∀ f ∈ [fnA, fnB], Convention f := by
  intro f hf
  rcases List.mem_cons.mp hf with rfl | hf
  · exact ⟨"202401010000".toList, rfl, by decide, by decide⟩
  · rcases List.mem_cons.mp hf with rfl | hf
    · exact ⟨"202401010010".toList, rfl, by decide, by decide⟩
    · cases hf

/-- Concrete instance of `resolve_cursor_is_max` on a two-file raw folder. -/
theorem resolve_cursor_is_max_witness :
    (∀ f ∈ [fnA, fnB], Convention f) ∧
    ((∃ f ∈ [fnA, fnB], resolve_cursor fnA [fnB] = filename_to_date (stem f)) ∧
      ∀ f ∈ [fnA, fnB],
        (filename_to_date (stem f)).key ≤ (resolve_cursor fnA [fnB]).key) :=
  ⟨fn_demo_conv, resolve_cursor_is_max fnA [fnB] fn_demo_conv⟩

/-- Concrete instance of `start_after_round_trip` on a two-file raw folder. -/
theorem start_after_round_trip_witness :
    (∀ f ∈ [fnA, fnB], Convention f) ∧
    (start_after_filename fnA [fnB] = lastSorted fnA [fnB] ∧
      ∀ f ∈ [fnA, fnB], lexLt (start_after_filename fnA [fnB]) f = false) :=
  ⟨fn_demo_conv, start_after_round_trip fnA [fnB] fn_demo_conv⟩

/-! ## Batch downloader (`download_files`, knmi.py lines 169-221)

The remote listing response is modelled by the list of HTTP status codes
that the per-file URL-resolution requests would return, one entry per file
descriptor the server listed (`data_frame` row).  Each loop iteration
issues one URL-resolution request; on 200 the file body is downloaded and
written, on 403 the loop breaks, on any other status the file is skipped. -/

/-- Failure mode of `download_files` before the download loop: the folder
listing `sorted(folder.glob("*.nc"))` is empty, so indexing `[-1]` raises —
the condition the spec names EmptyStoreError. -/
inductive DLErr where
  | emptyStore
deriving DecidableEq, Repr

/-- Observable outcome of one `download_files` call: the pagination
parameter sent to the listing endpoint, how many per-file URL-resolution
requests were issued, which listed files (by index) were downloaded and
written to disk, whether the loop stopped early on a 403, and the error
aborting the call, if any. -/
structure DLResult where
  startAfter : Option (List Char)
  requests : Nat
  downloaded : List Nat
  stoppedEarly : Bool
  error : Option DLErr
deriving DecidableEq, Repr

/-- Download loop of `download_files` (knmi.py lines 205-217): `idx` is the
current file index, `rem` the number of iterations `range(max_number_files)`
still grants, `reqs` and `dl` the requests issued and files written so far. -/
def dlLoop (statuses : List Nat) : Nat → Nat → Nat → List Nat →
    (Nat × List Nat × Bool)
  | _, 0, reqs, dl => (reqs, dl, false)
  | idx, rem + 1, reqs, dl =>
    let code := statuses.getD idx 0
    if code = 200 then dlLoop statuses (idx + 1) rem (reqs + 1) (dl ++ [idx])
    else if code = 403 then (reqs + 1, dl, true)
    else dlLoop statuses (idx + 1) rem (reqs + 1) dl

/-- Embedding of `download_files` (knmi.py lines 169-221): resolve the
cursor from the local raw folder (failing when it is empty), build the
`startAfterFilename` parameter, then fetch the listed files under the
quota `max_downloads`; `max_number_files` is the listing size capped at the
quota (lines 200-203). -/
def download_files (localFiles : List (List Char)) (statuses : List Nat)
    (maximum_quota : Nat) : DLResult :=
  match localFiles with
  | [] => ⟨none, 0, [], false, some DLErr.emptyStore⟩
  | f0 :: fs =>
    let sa := start_after_filename f0 fs
    let n := statuses.length
    let max_number_files := if maximum_quota ≥ n then n else maximum_quota
    let r := dlLoop statuses 0 max_number_files 0 []
    ⟨some sa, r.1, r.2.1, r.2.2, none⟩

lemma dlLoop_requests_le (statuses : List Nat) :
    ∀ (rem idx reqs : Nat) (dl : List Nat),
      (dlLoop statuses idx rem reqs dl).1 ≤ reqs + rem := by
  intro rem
  induction rem with
  | zero => intro idx reqs dl; simp [dlLoop]
  | succ rem ih =>
    intro idx reqs dl
    show (if statuses.getD idx 0 = 200 then
        dlLoop statuses (idx + 1) rem (reqs + 1) (dl ++ [idx])
      else if statuses.getD idx 0 = 403 then (reqs + 1, dl, true)
      else dlLoop statuses (idx + 1) rem (reqs + 1) dl).1 ≤ reqs + (rem + 1)
    by_cases h2 : statuses.getD idx 0 = 200
    · rw [if_pos h2]
      have := ih (idx + 1) (reqs + 1) (dl ++ [idx])
      omega
    · rw [if_neg h2]
      by_cases h4 : statuses.getD idx 0 = 403
      · rw [if_pos h4]
        omega
      · rw [if_neg h4]
        have := ih (idx + 1) (reqs + 1) dl
        omega

/-- C2: a single `download_files` call issues at most `min N Q` per-file
download requests, where `N` is the number of files the server listed and
`Q = max_downloads` the quota, regardless of how many descriptors are
available and of the statuses returned. -/
theorem download_quota_bound (localFiles : List (List Char))
    (statuses : List Nat) (maximum_quota : Nat) :
    (download_files localFiles statuses maximum_quota).requests ≤
      min statuses.length maximum_quota := by
  match localFiles with
  | [] => simp [download_files]
  | f0 :: fs =>
    show (dlLoop statuses 0
        (if maximum_quota ≥ statuses.length then statuses.length
          else maximum_quota) 0 []).1 ≤ min statuses.length maximum_quota
    by_cases hq : maximum_quota ≥ statuses.length
    · rw [if_pos hq]
      have h := dlLoop_requests_le statuses statuses.length 0 0 []
      omega
    · rw [if_neg hq]
      have h := dlLoop_requests_le statuses maximum_quota 0 0 []
      push_neg at hq
      omega

/-- C8: running `download_files` on an empty raw folder fails with the
empty-store error raised while resolving the cursor — before the listing
request and before any file-download request is issued (zero requests, no
files written). -/
theorem empty_folder_fails (statuses : List Nat) (maximum_quota : Nat) :
    download_files [] statuses maximum_quota =
      ⟨none, 0, [], false, some DLErr.emptyStore⟩ := rfl

lemma dlLoop_403 (statuses : List Nat) :
    ∀ (j idx rem reqs : Nat) (dl : List Nat),
      j < rem →
      (∀ i, i < j → statuses.getD (idx + i) 0 ≠ 403) →
      statuses.getD (idx + j) 0 = 403 →
      dlLoop statuses idx rem reqs dl =
        (reqs + (j + 1),
          dl ++ (List.range' idx j).filter (fun i => statuses.getD i 0 == 200),
          true) := by
  intro j
  induction j with
  | zero =>
    intro idx rem reqs dl hj hbefore hq
    rw [Nat.add_zero] at hq
    match rem, hj with
    | rem + 1, _ =>
      show (if statuses.getD idx 0 = 200 then
          dlLoop statuses (idx + 1) rem (reqs + 1) (dl ++ [idx])
        else if statuses.getD idx 0 = 403 then (reqs + 1, dl, true)
        else dlLoop statuses (idx + 1) rem (reqs + 1) dl) = _
      rw [hq]
      norm_num
  | succ j ihj =>
    intro idx rem reqs dl hj hbefore hq
    have h0 : statuses.getD idx 0 ≠ 403 := by
      have h := hbefore 0 (Nat.succ_pos j)
      simpa using h
    have hb' : ∀ i, i < j → statuses.getD (idx + 1 + i) 0 ≠ 403 := by
      intro i hi
      have h := hbefore (i + 1) (by omega)
      rw [show idx + 1 + i = idx + (i + 1) by omega]
      exact h
    have hq' : statuses.getD (idx + 1 + j) 0 = 403 := by
      rw [show idx + 1 + j = idx + (j + 1) by omega]
      exact hq
    have hr : List.range' idx (j + 1) = idx :: List.range' (idx + 1) j := rfl
    match rem, hj with
    | rem + 1, hj =>
      show (if statuses.getD idx 0 = 200 then
          dlLoop statuses (idx + 1) rem (reqs + 1) (dl ++ [idx])
        else if statuses.getD idx 0 = 403 then (reqs + 1, dl, true)
        else dlLoop statuses (idx + 1) rem (reqs + 1) dl) = _
      by_cases h2 : statuses.getD idx 0 = 200
      · rw [if_pos h2, ihj (idx + 1) rem (reqs + 1) (dl ++ [idx])
          (by omega) hb' hq', hr]
        have hfc : (idx :: List.range' (idx + 1) j).filter
            (fun i => statuses.getD i 0 == 200) =
            idx :: (List.range' (idx + 1) j).filter
              (fun i => statuses.getD i 0 == 200) := by
          simp [List.filter_cons, show statuses[idx]?.getD 0 = 200 by simpa [List.getD_eq_getElem?_getD] using h2]
        rw [hfc, show reqs + (j + 1 + 1) = reqs + 1 + (j + 1) from by omega]
        simp
      · rw [if_neg h2, if_neg h0, ihj (idx + 1) rem (reqs + 1) dl
          (by omega) hb' hq', hr]
        have hfc : (idx :: List.range' (idx + 1) j).filter
            (fun i => statuses.getD i 0 == 200) =
            (List.range' (idx + 1) j).filter
              (fun i => statuses.getD i 0 == 200) := by
          simp [List.filter_cons, show ¬ statuses[idx]?.getD 0 = 200 by simpa [List.getD_eq_getElem?_getD] using h2]
        rw [hfc, show reqs + (j + 1 + 1) = reqs + 1 + (j + 1) from by omega]

/-- C4: when the server answers a URL-resolution request with status 403
(quota exhausted) for the file at position `j` of the listing — the first
such position reached — `download_files` issues exactly `j + 1` per-file
requests (it stops immediately, issuing none after the 403), reports the
early stop, and the files written to disk are exactly those before
position `j` whose requests returned 200, all of which remain (no
rollback). -/
theorem download_stops_on_quota (f0 : List Char) (fs : List (List Char))
    (statuses : List Nat) (maximum_quota : Nat) (j : Nat)
    (hj : j < min statuses.length maximum_quota)
    (hbefore : ∀ i, i < j → statuses.getD i 0 ≠ 403)
    (hq : statuses.getD j 0 = 403) :
    (download_files (f0 :: fs) statuses maximum_quota).requests = j + 1 ∧
    (download_files (f0 :: fs) statuses maximum_quota).downloaded =
      (List.range j).filter (fun i => statuses.getD i 0 == 200) ∧
    (download_files (f0 :: fs) statuses maximum_quota).stoppedEarly = true := by
  have hb0 : ∀ i, i < j → statuses.getD (0 + i) 0 ≠ 403 := by
    intro i hi
    rw [Nat.zero_add]
    exact hbefore i hi
  have hq0 : statuses.getD (0 + j) 0 = 403 := by
    rw [Nat.zero_add]
    exact hq
  have hrem : j < (if maximum_quota ≥ statuses.length then statuses.length
      else maximum_quota) := by
    by_cases hc : maximum_quota ≥ statuses.length
    · rw [if_pos hc]
      omega
    · rw [if_neg hc]
      omega
  have hloop := dlLoop_403 statuses j 0
    (if maximum_quota ≥ statuses.length then statuses.length
      else maximum_quota) 0 [] hrem hb0 hq0
  refine ⟨?_, ?_, ?_⟩
  · show (dlLoop statuses 0 (if maximum_quota ≥ statuses.length
        then statuses.length else maximum_quota) 0 []).1 = j + 1
    rw [hloop]
    simp
  · show (dlLoop statuses 0 (if maximum_quota ≥ statuses.length
        then statuses.length else maximum_quota) 0 []).2.1 = _
    rw [hloop, List.range_eq_range']
    simp
  · show (dlLoop statuses 0 (if maximum_quota ≥ statuses.length
        then statuses.length else maximum_quota) 0 []).2.2 = true
    rw [hloop]

/-- Concrete instance of `download_stops_on_quota`: three files listed, the
second URL request returns 403, so two requests are issued and only the
first file is on disk. -/
theorem download_stops_on_quota_witness :
    (1 < min ([200, 403, 200] : List Nat).length 5 ∧
      (∀ i, i < 1 → ([200, 403, 200] : List Nat).getD i 0 ≠ 403) ∧
      ([200, 403, 200] : List Nat).getD 1 0 = 403) ∧
    ((download_files [fnA] [200, 403, 200] 5).requests = 1 + 1 ∧
      (download_files [fnA] [200, 403, 200] 5).downloaded =
        (List.range 1).filter
          (fun i => ([200, 403, 200] : List Nat).getD i 0 == 200) ∧
      (download_files [fnA] [200, 403, 200] 5).stoppedEarly = true) :=
  ⟨⟨by decide, by decide, rfl⟩,
    download_stops_on_quota fnA [] [200, 403, 200] 5 1 (by decide) (by decide) rfl⟩

/-! ## Dataset contents and `xr.merge` (`merge_nc_files`, knmi.py lines
224-257)

A dataset is modelled by its contents: a partial map from keys — for this
pipeline `(station, time)` pairs — to observation values.  `xr.merge`
combines datasets by key-wise union; with its default compatibility
checking it only succeeds when overlapping keys carry equal values, and
under that agreement the union is independent of which operand supplies an
overlapping key, so the left-biased union below is a faithful model.
`xr.merge([])` is the empty dataset. -/

/-- Contents of an `xarray` dataset: a partial map from `(station, time)`
keys to values. -/
def DS (K V : Type) : Type := K → Option V

/-- Empty dataset, the result of `xr.merge([])`. -/
def dsEmpty {K V : Type} : DS K V := fun _ => none

/-- Binary `xr.merge`: key-wise union of two datasets. -/
def dsMerge {K V : Type} (a b : DS K V) : DS K V := fun k =>
  match a k with
  | some v => some v
  | none => b k

/-- `xr.merge` of a list of datasets. -/
def mergeList {K V : Type} (l : List (DS K V)) : DS K V :=
  l.foldr dsMerge dsEmpty

/-- Agreement of two datasets on shared keys: where both are defined they
carry the same value (the compatibility `xr.merge` checks). -/
def Compat {K V : Type} (a b : DS K V) : Prop :=
  ∀ k, a k = none ∨ b k = none ∨ a k = b k

/-- Embedding of `merge_nc_files` (knmi.py lines 224-257) on dataset
contents: group the raw files' datasets with the 500-batch loop, merge
each closed batch, merge the remainder (`data_set_merging`), merge the
batch results (`merged_batch_merging`), combine the two into
`merged_downloaded_files`, and finally combine with the existing canonical
store when one is present (lines 245-257). -/
def merge_nc_files {K V : Type} (files : List (DS K V))
    (store : Option (DS K V)) : DS K V :=
  let st := mergeFold files
  let merged_batch := st.1.map mergeList
  let data_set_merging := mergeList st.2
  let merged_batch_merging := mergeList merged_batch
  let merged_downloaded_files :=
    mergeList [merged_batch_merging, data_set_merging]
  match store with
  | some merged_local_database_file =>
    mergeList [merged_downloaded_files, merged_local_database_file]
  | none => mergeList [merged_downloaded_files]

lemma dsMerge_empty_left {K V : Type} (a : DS K V) : dsMerge dsEmpty a = a := by
  funext k
  rfl

lemma dsMerge_empty_right {K V : Type} (a : DS K V) : dsMerge a dsEmpty = a := by
  funext k
  unfold dsMerge dsEmpty
  cases a k <;> rfl

lemma dsMerge_assoc {K V : Type} (a b c : DS K V) :
    dsMerge (dsMerge a b) c = dsMerge a (dsMerge b c) := by
  funext k
  unfold dsMerge
  cases a k <;> rfl

lemma dsMerge_self {K V : Type} (a : DS K V) : dsMerge a a = a := by
  funext k
  unfold dsMerge
  cases a k <;> rfl

lemma Compat.symm {K V : Type} {a b : DS K V} (h : Compat a b) : Compat b a := by
  intro k
  rcases h k with h1 | h1 | h1
  · exact Or.inr (Or.inl h1)
  · exact Or.inl h1
  · exact Or.inr (Or.inr h1.symm)

lemma dsMerge_comm {K V : Type} {a b : DS K V} (h : Compat a b) :
    dsMerge a b = dsMerge b a := by
  funext k
  unfold dsMerge
  cases ha : a k with
  | none => cases hb : b k <;> rfl
  | some v =>
    cases hb : b k with
    | none => rfl
    | some w =>
      rcases h k with h1 | h1 | h1
      · rw [ha] at h1
        exact absurd h1 (by simp)
      · rw [hb] at h1
        exact absurd h1 (by simp)
      · rw [ha, hb] at h1
        exact h1

lemma mergeList_cons {K V : Type} (a : DS K V) (l : List (DS K V)) :
    mergeList (a :: l) = dsMerge a (mergeList l) := rfl

lemma mergeList_nil {K V : Type} : mergeList ([] : List (DS K V)) = dsEmpty := rfl

lemma mergeList_single {K V : Type} (a : DS K V) : mergeList [a] = a := by
  rw [mergeList_cons, mergeList_nil, dsMerge_empty_right]

lemma mergeList_pair {K V : Type} (a b : DS K V) :
    mergeList [a, b] = dsMerge a b := by
  rw [mergeList_cons, mergeList_single]

lemma foldr_dsMerge_seed {K V : Type} (l : List (DS K V)) (b : DS K V) :
    l.foldr dsMerge b = dsMerge (mergeList l) b := by
  induction l with
  | nil => rw [mergeList, List.foldr_nil, List.foldr_nil, dsMerge_empty_left]
  | cons a l ih =>
    rw [List.foldr_cons, ih, mergeList_cons, dsMerge_assoc]

lemma mergeList_append {K V : Type} (l1 l2 : List (DS K V)) :
    mergeList (l1 ++ l2) = dsMerge (mergeList l1) (mergeList l2) := by
  rw [mergeList, List.foldr_append, foldr_dsMerge_seed]
  rfl

lemma mergeList_map_flatten {K V : Type} (groups : List (List (DS K V))) :
    mergeList (groups.map mergeList) = mergeList groups.flatten := by
  induction groups with
  | nil => rfl
  | cons g groups ih =>
    rw [List.map_cons, mergeList_cons, List.flatten_cons, mergeList_append, ih]

/-- Structural content of one merge pass: whatever the 500-batch grouping
does, the new-data dataset is the plain merge of all raw datasets, and the
written store is that merged with the previous store (or alone when no
store exists). -/
lemma merge_nc_files_eq {K V : Type} (files : List (DS K V))
    (store : Option (DS K V)) :
    merge_nc_files files store =
      dsMerge (mergeList files)
        (match store with | some s => s | none => dsEmpty) := by
  have hnew : mergeList [mergeList ((mergeFold files).1.map mergeList),
      mergeList (mergeFold files).2] = mergeList files := by
    rw [mergeList_pair, mergeList_map_flatten, ← mergeList_append,
      mergeFold_flatten]
  match store with
  | some s =>
    show mergeList [mergeList [mergeList ((mergeFold files).1.map mergeList),
        mergeList (mergeFold files).2], s] = _
    rw [mergeList_pair, hnew]
  | none =>
    show mergeList [mergeList [mergeList ((mergeFold files).1.map mergeList),
        mergeList (mergeFold files).2]] = _
    rw [mergeList_single, hnew]
    exact (dsMerge_empty_right _).symm

lemma mergeList_perm {K V : Type} {l1 l2 : List (DS K V)} (h : l1.Perm l2) :
    l1.Pairwise Compat → mergeList l1 = mergeList l2 := by
  induction h with
  | nil => intro _; rfl
  | cons x _ ih =>
    intro hp
    rw [mergeList_cons, mergeList_cons, ih (List.Pairwise.sublist
      (List.sublist_cons_self x _) hp)]
  | swap x y l =>
    intro hp
    have hxy : Compat y x := List.rel_of_pairwise_cons hp
      (List.mem_cons_self x l)
    rw [mergeList_cons, mergeList_cons, mergeList_cons, mergeList_cons,
      ← dsMerge_assoc, ← dsMerge_assoc, dsMerge_comm hxy]
  | trans h12 _ ih1 ih2 =>
    intro hp
    rw [ih1 hp, ih2 ((h12.pairwise_iff (fun hab => Compat.symm hab)).mp hp)]

/-- C7: on raw files whose datasets pairwise agree on shared `(station,
time)` keys, one merge pass writes the same canonical store for any
enumeration order of the files (hence for any 500-batch grouping the order
induces — the grouped result always equals the plain merge of all files
with the previous store), and re-running the pass on the same file set
against the store it produced writes an identical store. -/
theorem merge_order_independent {K V : Type} (files1 files2 : List (DS K V))
    (store : Option (DS K V)) (hperm : files1.Perm files2)
    (hcompat : files1.Pairwise Compat) :
    merge_nc_files files1 store = merge_nc_files files2 store ∧
    merge_nc_files files1 store =
      dsMerge (mergeList files1)
        (match store with | some s => s | none => dsEmpty) ∧
    merge_nc_files files1 (some (merge_nc_files files1 store)) =
      merge_nc_files files1 store := by
  refine ⟨?_, merge_nc_files_eq files1 store, ?_⟩
  · rw [merge_nc_files_eq, merge_nc_files_eq, mergeList_perm hperm hcompat]
  · rw [merge_nc_files_eq, merge_nc_files_eq]
    show dsMerge (mergeList files1) (dsMerge (mergeList files1)
        (match store with | some s => s | none => dsEmpty)) =
      dsMerge (mergeList files1)
        (match store with | some s => s | none => dsEmpty)
    rw [← dsMerge_assoc, dsMerge_self]

/-- Demonstration dataset defined at key 0 only. -/
def dsA : DS (Fin 2) Nat := fun k => if k = 0 then some 1 else none

/-- Demonstration dataset defined at key 1 only. -/
def dsB : DS (Fin 2) Nat := fun k => if k = 1 then some 2 else none

lemma dsAB_compat : ([dsA, dsB] : List (DS (Fin 2) Nat)).Pairwise Compat := by
  refine List.Pairwise.cons ?_ (List.Pairwise.cons ?_ List.Pairwise.nil)
  · intro b hb
    rcases List.mem_cons.mp hb with rfl | hb
    · intro k
      fin_cases k
      · exact Or.inr (Or.inl rfl)
      · exact Or.inl rfl
    · cases hb
  · intro b hb
    cases hb

/-- Concrete instance of `merge_order_independent`: two single-key
datasets merged in both orders, with no pre-existing store. -/
theorem merge_order_independent_witness :
    (([dsA, dsB] : List (DS (Fin 2) Nat)).Perm [dsB, dsA] ∧
      ([dsA, dsB] : List (DS (Fin 2) Nat)).Pairwise Compat) ∧
    (merge_nc_files [dsA, dsB] none = merge_nc_files [dsB, dsA] none ∧
      merge_nc_files [dsA, dsB] none =
        dsMerge (mergeList [dsA, dsB])
          (match (none : Option (DS (Fin 2) Nat)) with
            | some s => s | none => dsEmpty) ∧
      merge_nc_files [dsA, dsB] (some (merge_nc_files [dsA, dsB] none)) =
        merge_nc_files [dsA, dsB] none) :=
  ⟨⟨List.Perm.swap dsB dsA [], dsAB_compat⟩,
    merge_order_independent [dsA, dsB] [dsB, dsA] none
      (List.Perm.swap dsB dsA []) dsAB_compat⟩

/-! ## Fail-closed merge pass (knmi.py lines 232-257)

Reading a raw file (`xr.open_dataset`, line 233) can raise; the exception
propagates out of `merge_nc_files`, so `to_netcdf` (lines 254 and 257) is
never reached and the canonical store file keeps its previous content.
A raw file is modelled as `Option` of its dataset contents, `none` for an
unreadable/corrupt file. -/

/-- Failure aborting a merge pass: an unreadable or corrupt raw file. -/
inductive MergeErr where
  | unreadable
deriving DecidableEq, Repr

/-- Sequence of `xr.open_dataset` calls of the merge loop: the first
unreadable file raises, aborting the pass; otherwise all datasets are
produced in order. -/
def readAll {α : Type} : List (Option α) → Except MergeErr (List α)
  | [] => Except.ok []
  | none :: _ => Except.error MergeErr.unreadable
  | some d :: rest =>
    match readAll rest with
    | Except.ok l => Except.ok (d :: l)
    | Except.error e => Except.error e

/-- One merge pass over fallible raw-file reads: on success the value is
the dataset `merge_nc_files` writes with `to_netcdf`; on failure the
exception reaches the caller before any write. -/
def merge_nc_files_pass {K V : Type} (reads : List (Option (DS K V)))
    (store : Option (DS K V)) : Except MergeErr (DS K V) :=
  match readAll reads with
  | Except.ok files => Except.ok (merge_nc_files files store)
  | Except.error e => Except.error e

/-- Canonical store file content after a merge pass: `to_netcdf` rewrites
it only on the success path, so on failure the previous content remains. -/
def store_after_pass {K V : Type} (reads : List (Option (DS K V)))
    (store : Option (DS K V)) : Option (DS K V) :=
  match merge_nc_files_pass reads store with
  | Except.ok ds => some ds
  | Except.error _ => store

lemma readAll_has_none {α : Type} :
    ∀ (reads : List (Option α)), none ∈ reads →
      readAll reads = Except.error MergeErr.unreadable := by
  intro reads
  induction reads with
  | nil => intro h; cases h
  | cons r rest ih =>
    intro h
    cases r with
    | none => rfl
    | some d =>
      have hrest : none ∈ rest := by
        rcases List.mem_cons.mp h with h1 | h1
        · cases h1
        · exact h1
      show (match readAll rest with
        | Except.ok l => Except.ok (d :: l)
        | Except.error e => Except.error e) = _
      rw [ih hrest]

/-- C3: if any raw file fails to read during a merge pass, the pass aborts
with the merge-integrity error before the canonical store is written, and
the previously existing store content is left unchanged; the store write
is reached only when every raw file reads successfully. -/
theorem merge_fail_closed {K V : Type} (reads : List (Option (DS K V)))
    (store : Option (DS K V)) (h : none ∈ reads) :
    merge_nc_files_pass reads store = Except.error MergeErr.unreadable ∧
    store_after_pass reads store = store := by
  have hr := readAll_has_none reads h
  constructor
  · show (match readAll reads with
      | Except.ok files => Except.ok (merge_nc_files files store)
      | Except.error e => Except.error e) = _
    rw [hr]
  · show (match merge_nc_files_pass reads store with
      | Except.ok ds => some ds
      | Except.error _ => store) = store
    rw [show merge_nc_files_pass reads store
        = Except.error MergeErr.unreadable from by
      show (match readAll reads with
        | Except.ok files => Except.ok (merge_nc_files files store)
        | Except.error e => Except.error e) = _
      rw [hr]]

/-- Concrete instance of `merge_fail_closed`: one readable and one corrupt
raw file against an existing store. -/
theorem merge_fail_closed_witness :
    (none ∈ [some dsA, none]) ∧
    (merge_nc_files_pass [some dsA, none] (some dsB) =
        Except.error MergeErr.unreadable ∧
      store_after_pass [some dsA, none] (some dsB) = some dsB) :=
  ⟨by simp, merge_fail_closed [some dsA, none] (some dsB) (by simp)⟩

/-! ## Query layer (`KNMIApp`, knmi.py lines 10-151) -/

/-- Time selection of `KNMIApp.get_data` (knmi.py lines 111-115): only
when both `start` and `end` are provided is the range restricted with
`slice(start, end)` (label slicing, inclusive on both ends); otherwise the
station selection keeps the full time axis. -/
def get_data_time_sel (times : List Nat) (start stop : Option Nat) :
    List Nat :=
  match start, stop with
  | some s, some e => times.filter (fun t => s ≤ t && t ≤ e)
  | _, _ => times

/-- C9: whenever `start` and `end` are not both provided — both missing or
exactly one missing — `get_data` returns the station's data over the full
available time range of the canonical store, and a single provided bound
is not applied. -/
theorem get_data_full_range (times : List Nat) (start stop : Option Nat)
    (h : start = none ∨ stop = none) :
    get_data_time_sel times start stop = times := by
  rcases h with rfl | rfl
  · cases stop <;> rfl
  · cases start <;> rfl

/-- Concrete instance of `get_data_full_range`: a provided `start` with a
missing `end` leaves the time axis untouched. -/
theorem get_data_full_range_witness :
    ((some 2 : Option Nat) = none ∨ (none : Option Nat) = none) ∧
    get_data_time_sel [1, 2, 3] (some 2) none = [1, 2, 3] :=
  ⟨Or.inr rfl, get_data_full_range [1, 2, 3] (some 2) none (Or.inr rfl)⟩

/-! ## Variable catalog and the `"all"` expansion (knmi.py lines 11-14,
37-58, 103-104) -/

/-- Python exceptions reachable from the modelled `KNMIApp` paths:
`AttributeError` (reading an attribute never assigned, or a missing
`units` attribute inside `get_variables_info`) and `KeyError` (the
uncaught `attrs['long_name']` lookup). -/
inductive PyErr where
  | attributeError
  | keyError
deriving DecidableEq, Repr

/-- Metadata of one dataset variable: its name, and its optional `units`
attribute and `long_name` entry. -/
structure VarMeta where
  name : String
  units : Option String
  long_name : Option String
deriving DecidableEq, Repr

/-- State of a `KNMIApp` instance: the loaded dataset's variable metadata
and the `variable_info` attribute, which exists only after a successful
`get_variables_info` call (`none` models the attribute not being set). -/
structure KNMIApp where
  ds_vars : List VarMeta
  variable_info : Option (List String)
deriving DecidableEq, Repr

/-- Constructor `KNMIApp.__init__` (knmi.py lines 11-14): loads the
dataset; it assigns no `variable_info` attribute. -/
def KNMIApp.init (vars : List VarMeta) : KNMIApp := ⟨vars, none⟩

/-- Catalog computation of `get_variables_info` (knmi.py lines 40-54): a
variable with no `units` attribute raises `AttributeError`, which is
caught and the variable skipped; a variable with `units` but no
`long_name` raises an uncaught `KeyError` at `attrs['long_name']`;
otherwise the variable name is recorded in order. -/
def varCatalog : List VarMeta → Except PyErr (List String)
  | [] => Except.ok []
  | v :: vs =>
    match v.units with
    | none => varCatalog vs
    | some _ =>
      match v.long_name with
      | none => Except.error PyErr.keyError
      | some _ =>
        match varCatalog vs with
        | Except.ok l => Except.ok (v.name :: l)
        | Except.error e => Except.error e

/-- Embedding of `KNMIApp.get_variables_info` (knmi.py lines 37-58): on
success it assigns `self.variable_info` and returns the updated instance. -/
def KNMIApp.get_variables_info (app : KNMIApp) : Except PyErr KNMIApp :=
  match varCatalog app.ds_vars with
  | Except.ok cat => Except.ok ⟨app.ds_vars, some cat⟩
  | Except.error e => Except.error e

/-- Variable selection of `KNMIApp.get_data` (knmi.py lines 103-104): for
`variable = 'all'` the list `self.variable_info.variable.to_list()` is
read — an `AttributeError` if `variable_info` was never assigned;
otherwise the result holds the variables extracted into the data frame. -/
def KNMIApp.get_data_vars (app : KNMIApp) (varName : String) :
    Except PyErr (List String) :=
  if varName = "all" then
    match app.variable_info with
    | none => Except.error PyErr.attributeError
    | some cat => Except.ok cat
  else Except.ok [varName]

/-- C10: `get_data` with `variable = 'all'` on a freshly constructed
`KNMIApp` fails with `AttributeError`, because the constructor never
initializes the `variable_info` catalog attribute; after a successful
`get_variables_info` call on the instance, `'all'` expands to exactly the
variables of that catalog. -/
theorem get_data_all_requires_info (vars : List VarMeta) (app2 : KNMIApp)
    (h : (KNMIApp.init vars).get_variables_info = Except.ok app2) :
    (KNMIApp.init vars).get_data_vars "all" = Except.error PyErr.attributeError ∧
    ∃ cat : List String, varCatalog vars = Except.ok cat ∧
      app2.get_data_vars "all" = Except.ok cat := by
  constructor
  · rfl
  · unfold KNMIApp.get_variables_info at h
    cases hcat : varCatalog vars with
    | ok cat =>
      rw [show (KNMIApp.init vars).ds_vars = vars from rfl, hcat] at h
      refine ⟨cat, rfl, ?_⟩
      cases h
      rfl
    | error e =>
      rw [show (KNMIApp.init vars).ds_vars = vars from rfl, hcat] at h
      cases h

/-- Demonstration variable metadata carrying both attributes. -/
def demoVar : VarMeta := ⟨"ta", some "C", some "Air temperature"⟩

/-- Concrete instance of `get_data_all_requires_info` on a one-variable
dataset. -/
theorem get_data_all_requires_info_witness :
    ((KNMIApp.init [demoVar]).get_variables_info =
      Except.ok ⟨[demoVar], some ["ta"]⟩) ∧
    ((KNMIApp.init [demoVar]).get_data_vars "all" =
        Except.error PyErr.attributeError ∧
      ∃ cat : List String, varCatalog [demoVar] = Except.ok cat ∧
        (KNMIApp.mk [demoVar] (some ["ta"])).get_data_vars "all" =
          Except.ok cat) :=
  ⟨rfl, get_data_all_requires_info [demoVar] ⟨[demoVar], some ["ta"]⟩ rfl⟩

end Knmi
